import Mathlib

/-!
Verification of the video-forensics analysis pipeline
(`utils.py`: `extract_metadata`, `calculate_hash`, `analyze_frames`,
and the integrity-score computation of `app.py`).

The embedding is shallow: a decoded video is a list of frames (each frame a
flat list of BGR pixels), the OpenCV capture handle is a record of the
container-reported properties, file bytes are a list of naturals < 256, and
32-bit machine arithmetic is `Nat` arithmetic taken `% 2^32` where overflow
matters.
-/

/-- One BGR pixel as decoded by `cap.read()`; each channel is a byte value. -/
structure Pixel where
  b : Nat
  g : Nat
  r : Nat
deriving DecidableEq

/-- A decoded frame: the flat list of its pixels.  Per-pixel operations
(`cv2.absdiff`, `diff > 25`, `np.count_nonzero`, `diff.size`) are elementwise,
so the row/column layout is irrelevant and frames are kept flat. -/
abbrev Frame := List Pixel

/-- A luminance (grayscale) frame: one byte value per pixel. -/
abbrev GrayFrame := List Nat

/-- Luminance of one pixel, as computed by `cv2.cvtColor(..., COLOR_BGR2GRAY)`:
OpenCV uses the fixed-point weights 0.299 R + 0.587 G + 0.114 B, i.e.
`(4899*R + 9617*G + 1868*B + 8192) >> 14` (the weights sum to 2^14 = 16384). -/
def grayPixel (p : Pixel) : Nat :=
  (4899 * p.r + 9617 * p.g + 1868 * p.b + 8192) / 16384

/-- Grayscale conversion of a whole frame (`cv2.cvtColor(frame, COLOR_BGR2GRAY)`). -/
def grayFrame (f : Frame) : GrayFrame := f.map grayPixel

/-- Per-pixel absolute difference of two luminance buffers (`cv2.absdiff`).
Both operands are byte values, so no saturation can occur. -/
def absdiff (cur prev : GrayFrame) : List Nat :=
  List.zipWith (fun x y => max x y - min x y) cur prev

/-- Fraction of pixels whose luminance difference strictly exceeds 25, from
`analyze_frames`: `np.count_nonzero(diff > 25) / diff.size`, as the exact
rational quotient of the exceeding-pixel count by the total pixel count
(`mkRat n d` is the rational `n / d`; see `change_percentage_eq_div`). -/
def change_percentage (cur prev : GrayFrame) : ℚ :=
  mkRat ((absdiff cur prev).countP fun d => decide (25 < d)) (absdiff cur prev).length

/-- A video as seen through `cv2.VideoCapture`: `frame_count` is the
container-reported `int(cap.get(CAP_PROP_FRAME_COUNT))` (an `int`, so it may
be non-positive for broken containers), and `frames` are the frames that
`cap.read()` successfully decodes, in order.  A decode failure mid-stream is
a `frames` list shorter than `frame_count`. -/
structure Video where
  frame_count : Int
  frames : List Frame

/-- The scan loop of `analyze_frames`.  Each step reads the next decodable
frame (an exhausted list is `ret == False`, i.e. the `break`), converts it to
grayscale, compares with the retained previous buffer when one exists, and
appends the running index `i` to the accumulator when the change percentage
strictly exceeds the threshold. -/
def analyzeGo (t : ℚ) : List Frame → Nat → Option GrayFrame → List Nat → List Nat
  | [], _, _, acc => acc
  | f :: rest, i, prev, acc =>
    let g := grayFrame f
    let acc2 :=
      match prev with
      | none => acc
      | some p => if t < change_percentage g p then acc ++ [i] else acc
    analyzeGo t rest (i + 1) (some g) acc2

/-- `analyze_frames(video_path, threshold)` from `utils.py`: return `[]` when
the reported frame count is non-positive, otherwise scan at most
`frame_count` frames (`for i in range(frame_count)`), stopping early when a
read fails. -/
def analyze_frames (v : Video) (threshold : ℚ) : List Nat :=
  if v.frame_count ≤ 0 then []
  else analyzeGo threshold (v.frames.take v.frame_count.toNat) 0 none []

/-- An all-black 2×2 grayscale frame (every BGR channel 0). -/
def frameBlack : Frame := List.replicate 4 ⟨0, 0, 0⟩

/-- An all-white 2×2 grayscale frame (every BGR channel 255). -/
def frameWhite : Frame := List.replicate 4 ⟨255, 255, 255⟩

/-- The synthetic 10-frame, 2×2-pixel sequence of the spec's scenario:
frames 0–4 all black, frames 5–9 all white. -/
def videoFlip : Video := ⟨10, List.replicate 5 frameBlack ++ List.replicate 5 frameWhite⟩

/-- A 2-frame video whose two frames are byte-identical. -/
def videoTwoSame : Video := ⟨2, [frameBlack, frameBlack]⟩

/-- The result of opening a zero-byte file: `cap.get` reports 0 frames and
nothing decodes. -/
def emptyFileVideo : Video := ⟨0, []⟩

/-- The membership test used at a candidate index `j` of the frame list `L`:
`j` has a predecessor and the change percentage of the transition into frame
`j` strictly exceeds the threshold. -/
def flagP (t : ℚ) (L : List Frame) (j : Nat) : Bool :=
  decide (1 ≤ j) &&
    decide (t < change_percentage (grayFrame (L.getD j [])) (grayFrame (L.getD (j - 1) [])))

/-- Reference description of the scan result over a fully decoded frame list:
the indices of `L` whose incoming transition exceeds the threshold. -/
def flaggedIndices (t : ℚ) (L : List Frame) : List Nat :=
  (List.range L.length).filter (flagP t L)

/-- A 20-pixel all-black frame. -/
def frame20Zero : Frame := List.replicate 20 ⟨0, 0, 0⟩

/-- A 20-pixel frame with exactly one white pixel, so its transition from
`frame20Zero` has change percentage exactly 1/20 = 0.05. -/
def frame20One : Frame := ⟨255, 255, 255⟩ :: List.replicate 19 ⟨0, 0, 0⟩

/-- A 2-frame video whose single transition sits exactly at the default
threshold. -/
def videoAtThreshold : Video := ⟨2, [frame20Zero, frame20One]⟩

/-- The properties `extract_metadata` reads from an opened
`cv2.VideoCapture`.  Each field is the value the container reports:
`frame_count`, `frame_width`, `frame_height` and `fourcc` go through
Python's `int(...)` (the fourcc of a real container is a packed unsigned
32-bit tag, so it is kept as a `Nat`), `fps` is the raw floating value,
modelled as an exact rational. -/
structure Capture where
  opened : Bool
  frame_count : Int
  frame_width : Int
  frame_height : Int
  fps : ℚ
  fourcc : Nat
deriving DecidableEq

/-- The metadata record built by `extract_metadata` on success, with the
keys of the Python dict as fields. -/
structure Metadata where
  frame_count : Int
  frame_width : Int
  frame_height : Int
  fps : ℚ
  resolution : String
  codec : String
  duration_seconds : ℚ
deriving DecidableEq

/-- Result of `extract_metadata`: either the `{"error": ...}` dictionary or
the metadata record. -/
inductive MetaResult where
  | error (msg : String)
  | ok (m : Metadata)
deriving DecidableEq

/-- Whether a `MetaResult` is a success record. -/
def MetaResult.isOk : MetaResult → Bool
  | .error _ => false
  | .ok _ => true

/-- Decoding of the packed fourcc tag, from
`chr(fourcc_int & 0xFF) + chr((fourcc_int >> 8) & 0xFF) + chr((fourcc_int >> 16) & 0xFF) + chr((fourcc_int >> 24) & 0xFF)`:
each byte is extracted least-significant first (`>> 8*k` is division by
`256^k` and `& 0xFF` is `% 256`) and mapped to the character with that code
point. -/
def fourccChars (n : Nat) : String :=
  String.mk [Char.ofNat (n % 256), Char.ofNat (n / 256 % 256),
    Char.ofNat (n / 65536 % 256), Char.ofNat (n / 16777216 % 256)]

/-- `extract_metadata(video_path)` from `utils.py`: fail when the capture
cannot be opened; otherwise report the container's values, the derived
`"WxH"` resolution string, the decoded fourcc, and the duration guarded by
`fps > 0`. -/
def extract_metadata (c : Capture) : MetaResult :=
  if !c.opened then .error "Failed to open video file"
  else
    .ok
      { frame_count := c.frame_count
        frame_width := c.frame_width
        frame_height := c.frame_height
        fps := c.fps
        resolution := toString c.frame_width ++ "x" ++ toString c.frame_height
        codec := fourccChars c.fourcc
        duration_seconds :=
          if 0 < c.fps then (c.frame_count : ℚ) / c.fps else 0 }

/-- Modelled from the spec: opening a zero-byte file fails
(`cap.isOpened()` is false), so every reported property is zero.  The
open/decode behaviour of `cv2.VideoCapture` itself is outside the analyzed
source; the spec's zero-byte-file scenario fixes it. -/
def emptyFileCapture : Capture := ⟨false, 0, 0, 0, 0, 0⟩

/-- An opened capture that reports zero frames (e.g. a stream without a
frame-count header): `extract_metadata` does not treat this as a failure. -/
def captureZeroFrames : Capture := ⟨true, 0, 640, 480, 30, 875967080⟩

/-- A small opened capture used as a success-path witness
(2×2, 100 frames, 25 fps, fourcc tag 0). -/
def captureSmall : Capture := ⟨true, 100, 2, 2, 25, 0⟩

/-- The record `extract_metadata` produces for `captureSmall`. -/
def metadataSmall : Metadata :=
  ⟨100, 2, 2, 25, "2x2",
    String.mk [Char.ofNat 0, Char.ofNat 0, Char.ofNat 0, Char.ofNat 0], 4⟩

/-- The integrity-score computation of the report tab in `app.py`:
`max(0, 100 - (len(altered_frames) / frame_count * 100))` when at least one
altered frame was found, and the fixed displayed score 100 otherwise. -/
def integrity_score (altered : List Nat) (frame_count : Int) : ℚ :=
  if 0 < altered.length then
    max 0 (100 - ((altered.length : ℚ) / (frame_count : ℚ)) * 100)
  else 100

/-- Left-rotation of a 32-bit word by `s` bits. -/
def rotl32 (s x : Nat) : Nat :=
  ((x <<< s) % 4294967296) ||| (x >>> (32 - s))

/-- Bitwise complement within 32 bits. -/
def not32 (x : Nat) : Nat := 4294967295 ^^^ x

/-- The 64 MD5 round constants `K[i] = floor(2^32 * abs(sin(i + 1)))`. -/
def md5K : List Nat :=
  [0xd76aa478, 0xe8c7b756, 0x242070db, 0xc1bdceee,
   0xf57c0faf, 0x4787c62a, 0xa8304613, 0xfd469501,
   0x698098d8, 0x8b44f7af, 0xffff5bb1, 0x895cd7be,
   0x6b901122, 0xfd987193, 0xa679438e, 0x49b40821,
   0xf61e2562, 0xc040b340, 0x265e5a51, 0xe9b6c7aa,
   0xd62f105d, 0x02441453, 0xd8a1e681, 0xe7d3fbc8,
   0x21e1cde6, 0xc33707d6, 0xf4d50d87, 0x455a14ed,
   0xa9e3e905, 0xfcefa3f8, 0x676f02d9, 0x8d2a4c8a,
   0xfffa3942, 0x8771f681, 0x6d9d6122, 0xfde5380c,
   0xa4beea44, 0x4bdecfa9, 0xf6bb4b60, 0xbebfbc70,
   0x289b7ec6, 0xeaa127fa, 0xd4ef3085, 0x04881d05,
   0xd9d4d039, 0xe6db99e5, 0x1fa27cf8, 0xc4ac5665,
   0xf4292244, 0x432aff97, 0xab9423a7, 0xfc93a039,
   0x655b59c3, 0x8f0ccc92, 0xffeff47d, 0x85845dd1,
   0x6fa87e4f, 0xfe2ce6e0, 0xa3014314, 0x4e0811a1,
   0xf7537e82, 0xbd3af235, 0x2ad7d2bb, 0xeb86d391]

/-- The 64 MD5 per-round left-rotation amounts. -/
def md5S : List Nat :=
  [7, 12, 17, 22, 7, 12, 17, 22, 7, 12, 17, 22, 7, 12, 17, 22,
   5, 9, 14, 20, 5, 9, 14, 20, 5, 9, 14, 20, 5, 9, 14, 20,
   4, 11, 16, 23, 4, 11, 16, 23, 4, 11, 16, 23, 4, 11, 16, 23,
   6, 10, 15, 21, 6, 10, 15, 21, 6, 10, 15, 21, 6, 10, 15, 21]

/-- The MD5 nonlinear mixing function of round `i`. -/
def md5Mix (i b c d : Nat) : Nat :=
  if i < 16 then (b &&& c) ||| (not32 b &&& d)
  else if i < 32 then (d &&& b) ||| (not32 d &&& c)
  else if i < 48 then b ^^^ c ^^^ d
  else c ^^^ (b ||| not32 d)

/-- The message-word index schedule of round `i`. -/
def md5Idx (i : Nat) : Nat :=
  if i < 16 then i
  else if i < 32 then (5 * i + 1) % 16
  else if i < 48 then (3 * i + 5) % 16
  else 7 * i % 16

/-- One MD5 round: rotate the state, feeding in one message word. -/
def md5Round (M : List Nat) (st : Nat × Nat × Nat × Nat) (i : Nat) :
    Nat × Nat × Nat × Nat :=
  let f := (md5Mix i st.2.1 st.2.2.1 st.2.2.2 + st.1 +
    md5K.getD i 0 + M.getD (md5Idx i) 0) % 4294967296
  (st.2.2.2, (st.2.1 + rotl32 (md5S.getD i 0) f) % 4294967296, st.2.1, st.2.2.1)

/-- Process one 64-byte block (given as 16 words) into the running state. -/
def md5Block (st : Nat × Nat × Nat × Nat) (M : List Nat) : Nat × Nat × Nat × Nat :=
  let r := (List.range 64).foldl (md5Round M) st
  ((st.1 + r.1) % 4294967296, (st.2.1 + r.2.1) % 4294967296,
    (st.2.2.1 + r.2.2.1) % 4294967296, (st.2.2.2 + r.2.2.2) % 4294967296)

/-- Pack bytes into 32-bit words, least-significant byte first. -/
def leWords : List Nat → List Nat
  | b0 :: b1 :: b2 :: b3 :: rest =>
    (b0 + 256 * b1 + 65536 * b2 + 16777216 * b3) :: leWords rest
  | _ => []

/-- Split a byte list into 64-byte blocks (fuel-driven so that it is
structurally recursive; any fuel of at least the byte count is enough). -/
def chunk64Go : Nat → List Nat → List (List Nat)
  | 0, _ => []
  | _, [] => []
  | fuel + 1, bs => bs.take 64 :: chunk64Go fuel (bs.drop 64)

/-- The 8-byte little-endian encoding of a 64-bit length value. -/
def le8 (n : Nat) : List Nat :=
  [n % 256, n / 256 % 256, n / 65536 % 256, n / 16777216 % 256,
    n / 4294967296 % 256, n / 1099511627776 % 256,
    n / 281474976710656 % 256, n / 72057594037927936 % 256]

/-- MD5 padding: a 0x80 byte, zeros to 56 mod 64, then the bit length. -/
def padBytes (msg : List Nat) : List Nat :=
  msg ++ [128] ++ List.replicate ((119 - msg.length % 64) % 64) 0 ++
    le8 ((8 * msg.length) % 18446744073709551616)

/-- Unpack a 32-bit word into 4 bytes, least-significant first. -/
def wordLEBytes (w : Nat) : List Nat :=
  [w % 256, w / 256 % 256, w / 65536 % 256, w / 16777216 % 256]

/-- Lowercase hexadecimal digit of a value below 16. -/
def hexDigit (n : Nat) : Char :=
  if n < 10 then Char.ofNat (48 + n) else Char.ofNat (87 + n)

/-- Two lowercase hexadecimal digits of a byte. -/
def byteHex (b : Nat) : List Char := [hexDigit (b / 16), hexDigit (b % 16)]

/-- The full MD5 digest of a byte sequence as a lowercase hex string:
pad, split into 64-byte blocks, fold the compression function from the
standard initial state, and serialise the final state little-endian. -/
def md5Hex (msg : List Nat) : String :=
  let padded := padBytes msg
  let blocks := chunk64Go padded.length padded
  let st := blocks.foldl (fun st blk => md5Block st (leWords blk))
    (1732584193, 4023233417, 2562383102, 271733878)
  String.mk (((wordLEBytes st.1 ++ wordLEBytes st.2.1 ++
    wordLEBytes st.2.2.1 ++ wordLEBytes st.2.2.2).map byteHex).flatten)

/-- The `f.read(4096)` loop of `calculate_hash`: the file's bytes, split
into successive chunks of at most 4096 bytes (fuel-driven structural
recursion; the byte count is enough fuel). -/
def readChunks : Nat → List Nat → List (List Nat)
  | 0, _ => []
  | _, [] => []
  | fuel + 1, bs => bs.take 4096 :: readChunks fuel (bs.drop 4096)

/-- `calculate_hash(video_path)` from `utils.py`: stream the file in
4096-byte chunks into an incremental MD5 and return the lowercase hex
digest.  Folding the incremental update over successive chunks digests
their concatenation, so the model hashes the flattened chunk list. -/
def calculate_hash (data : List Nat) : String :=
  md5Hex ((readChunks data.length data).flatten)

/-- The change percentage is the exceeding-pixel count divided by the total
pixel count, written with field division. -/
lemma change_percentage_eq_div (cur prev : GrayFrame) :
    change_percentage cur prev =
      (((absdiff cur prev).countP fun d => decide (25 < d) : Nat) : ℚ) /
        ((absdiff cur prev).length : ℚ) := by
  rw [change_percentage, Rat.mkRat_eq_div]
  push_cast
  rfl

/-- The default threshold `0.05` of `analyze_frames` as a raw rational. -/
lemma ratPoint05 : (0.05 : ℚ) = mkRat 1 20 := by
  rw [Rat.mkRat_eq_div]; norm_num

/-- Unrolling of the scan loop: starting the loop after a processed prefix
`ctx` (the retained buffer being the grayscale of the last frame of `ctx`),
it appends exactly the flagged indices of the remaining frames. -/
lemma analyzeGo_eq (t : ℚ) (fs : List Frame) :
    ∀ (ctx : List Frame) (acc : List Nat),
      analyzeGo t fs ctx.length ((ctx.getLast?).map grayFrame) acc =
        acc ++ (List.range' ctx.length fs.length).filter (flagP t (ctx ++ fs)) := by
  induction fs with
  | nil => intro ctx acc; simp [analyzeGo]
  | cons f rest ih =>
    intro ctx acc
    rcases List.eq_nil_or_concat ctx with rfl | ⟨ys, y, rfl⟩
    · have hstep : analyzeGo t (f :: rest) 0 (Option.map grayFrame none) acc =
          analyzeGo t rest 1 (some (grayFrame f)) acc := rfl
      have ihx := ih [f] acc
      simp only [List.length_singleton, List.getLast?_singleton, Option.map_some',
        List.singleton_append] at ihx
      have hhead : flagP t ([] ++ f :: rest) 0 = false := by
        simp [flagP]
      simp only [List.length_nil, List.getLast?_nil, Option.map_none, List.nil_append,
        List.length_cons] at hhead ⊢
      rw [hstep, ihx]
      rw [List.range'_succ, List.filter_cons, hhead]
      simp
    · simp only [List.concat_eq_append]
      have hstep : analyzeGo t (f :: rest) (ys.length + 1) (some (grayFrame y)) acc =
          analyzeGo t rest (ys.length + 1 + 1) (some (grayFrame f))
            (if t < change_percentage (grayFrame f) (grayFrame y)
              then acc ++ [ys.length + 1] else acc) := rfl
      have hL : ((ys ++ [y]) ++ [f]) ++ rest = (ys ++ [y]) ++ f :: rest := by
        simp
      have ihx := ih ((ys ++ [y]) ++ [f])
        (if t < change_percentage (grayFrame f) (grayFrame y)
          then acc ++ [ys.length + 1] else acc)
      simp only [List.length_append, List.length_singleton, List.length_cons,
        List.length_nil, Nat.zero_add, Nat.add_zero, List.getLast?_concat,
        Option.map_some', hL] at ihx
      have hd1 : ((ys ++ [y]) ++ f :: rest).getD (ys.length + 1) [] = f := by
        rw [List.getD_append_right _ _ _ _ (by simp)]
        simp
      have hd0 : ((ys ++ [y]) ++ f :: rest).getD (ys.length + 1 - 1) [] = y := by
        rw [List.getD_append _ _ _ _ (by simp)]
        rw [Nat.add_sub_cancel, List.getD_append_right _ _ _ _ (le_refl ys.length)]
        simp
      have hhead : flagP t ((ys ++ [y]) ++ f :: rest) (ys.length + 1) =
          decide (t < change_percentage (grayFrame f) (grayFrame y)) := by
        rw [flagP, hd1, hd0]
        simp
      simp only [List.length_append, List.length_singleton, List.length_cons,
        List.length_nil, List.getLast?_concat, Option.map_some']
      rw [hstep, ihx]
      rw [List.range'_succ, List.filter_cons, hhead]
      by_cases hcp : t < change_percentage (grayFrame f) (grayFrame y)
      · simp [hcp]
      · simp [hcp]

/-- The scan result is exactly the flagged indices of the first
`frame_count` decodable frames. -/
lemma analyze_frames_eq (v : Video) (t : ℚ) :
    analyze_frames v t = flaggedIndices t (v.frames.take v.frame_count.toNat) := by
  rw [analyze_frames]
  split
  · rename_i h
    rw [Int.toNat_of_nonpos h]
    simp [flaggedIndices]
  · have h := analyzeGo_eq t (v.frames.take v.frame_count.toNat) [] []
    simpa [flaggedIndices, List.range_eq_range'] using h

/-- Membership in the flagged-index list, unfolded. -/
lemma mem_flaggedIndices (t : ℚ) (L : List Frame) (j : Nat) :
    j ∈ flaggedIndices t L ↔
      1 ≤ j ∧ j < L.length ∧
      t < change_percentage (grayFrame (L.getD j [])) (grayFrame (L.getD (j - 1) [])) := by
  simp only [flaggedIndices, flagP, List.mem_filter, List.mem_range, Bool.and_eq_true,
    decide_eq_true_eq]
  tauto

/-- The flagged-index list is strictly increasing (it filters `List.range`). -/
lemma flaggedIndices_pairwise (t : ℚ) (L : List Frame) :
    (flaggedIndices t L).Pairwise (· < ·) :=
  List.Pairwise.sublist (List.filter_sublist _) (List.pairwise_lt_range _)

/-- A change percentage is never negative. -/
lemma change_percentage_nonneg (cur prev : GrayFrame) : 0 ≤ change_percentage cur prev := by
  rw [change_percentage_eq_div]
  positivity

/-- A change percentage never exceeds 1. -/
lemma change_percentage_le_one (cur prev : GrayFrame) : change_percentage cur prev ≤ 1 := by
  rw [change_percentage_eq_div]
  rcases Nat.eq_zero_or_pos (absdiff cur prev).length with h | h
  · simp [h]
  · rw [div_le_one (by exact_mod_cast h)]
    exact_mod_cast List.countP_le_length _

/-- Comparing a luminance buffer against itself yields change percentage 0. -/
lemma change_percentage_self (g : GrayFrame) : change_percentage g g = 0 := by
  have h : (absdiff g g).countP (fun d => decide (25 < d)) = 0 := by
    rw [absdiff, List.zipWith_same, List.countP_map]
    simp [Function.comp_def]
  rw [change_percentage_eq_div, h]
  simp

/-- Reading inside the taken prefix is reading the original list. -/
lemma getD_take {L : List Frame} {n j : Nat} (h : j < n) :
    (L.take n).getD j [] = L.getD j [] := by
  rw [List.getD_eq_getElem?_getD, List.getD_eq_getElem?_getD, List.getElem?_take, if_pos h]

/-- Membership in the scan result, characterised over the video itself:
an index is reported exactly when it is at least 1, lies below both the
reported frame count and the number of decodable frames, and its incoming
transition exceeds the threshold. -/
lemma mem_analyze_frames (v : Video) (t : ℚ) (i : Nat) :
    i ∈ analyze_frames v t ↔
      1 ≤ i ∧ i < min v.frame_count.toNat v.frames.length ∧
      t < change_percentage (grayFrame (v.frames.getD i []))
            (grayFrame (v.frames.getD (i - 1) [])) := by
  rw [analyze_frames_eq, mem_flaggedIndices, List.length_take]
  constructor
  · rintro ⟨h1, h2, h3⟩
    have hi : i < v.frame_count.toNat := lt_of_lt_of_le h2 (min_le_left _ _)
    rw [getD_take hi, getD_take (by omega)] at h3
    exact ⟨h1, h2, h3⟩
  · rintro ⟨h1, h2, h3⟩
    have hi : i < v.frame_count.toNat := lt_of_lt_of_le h2 (min_le_left _ _)
    rw [getD_take hi, getD_take (by omega)]
    exact ⟨h1, h2, h3⟩

/-- Any reported index forces the reported frame count to be at least 2,
and is itself between 1 and `frame_count - 1`. -/
lemma bounds_of_mem_analyze_frames {v : Video} {t : ℚ} {j : Nat}
    (hj : j ∈ analyze_frames v t) :
    2 ≤ v.frame_count ∧ 1 ≤ j ∧ (j : Int) ≤ v.frame_count - 1 := by
  rw [mem_analyze_frames] at hj
  obtain ⟨h1, h2, _⟩ := hj
  have h3 : j < v.frame_count.toNat := lt_of_lt_of_le h2 (min_le_left _ _)
  omega

/-- A non-empty scan result forces the reported frame count to be at least 2. -/
lemma frame_count_ge_two_of_ne_nil {v : Video} {t : ℚ}
    (h : analyze_frames v t ≠ []) : 2 ≤ v.frame_count := by
  obtain ⟨j, hj⟩ := List.exists_mem_of_ne_nil _ h
  exact (bounds_of_mem_analyze_frames hj).1

/-- C1: for every video input and every threshold, the alteration set
returned by `analyze_frames` is an ordered sequence of distinct, strictly
increasing frame indices, every element lies in `[1, frame_count - 1]`, and
index 0 never appears in the result. -/
theorem alteration_set_sorted_bounded (v : Video) (t : ℚ) :
    List.Pairwise (· < ·) (analyze_frames v t) ∧
    (∀ i ∈ analyze_frames v t, 1 ≤ i ∧ (i : Int) ≤ v.frame_count - 1) ∧
    0 ∉ analyze_frames v t := by
  refine ⟨?_, fun i hi => (bounds_of_mem_analyze_frames hi).2, fun h0 => ?_⟩
  · rw [analyze_frames_eq]
    exact flaggedIndices_pairwise _ _
  · exact absurd (bounds_of_mem_analyze_frames h0).2.1 (by norm_num)

/-- Witness for C1 at the synthetic flip video: the reported index 5 lies in
`[1, frame_count - 1]` and index 0 is absent. -/
theorem alteration_set_sorted_bounded_witness :
    (1 ≤ 5 ∧ ((5 : Nat) : Int) ≤ videoFlip.frame_count - 1) ∧
    0 ∉ analyze_frames videoFlip (mkRat 1 20) :=
  ⟨(alteration_set_sorted_bounded videoFlip (mkRat 1 20)).2.1 5 (by decide),
   (alteration_set_sorted_bounded videoFlip (mkRat 1 20)).2.2⟩

/-- C2: on the synthetic 10-frame 2×2 sequence where every pixel flips from
0 to 255 at frame 5, `analyze_frames` with the default threshold 0.05 (and
the fixed intensity delta 25) returns exactly the alteration set `[5]`. -/
theorem synthetic_flip_alteration_set : analyze_frames videoFlip 0.05 = [5] := by
  rw [ratPoint05]
  decide

/-- C3: an index is flagged exactly when its transition's change percentage
strictly exceeds the threshold; a change percentage exactly equal to the
threshold is not flagged; byte-identical consecutive frames are never
flagged for a non-negative threshold; and the change percentage is the
count of pixels whose difference strictly exceeds 25, divided by the total
pixel count. -/
theorem change_detection_rule (v : Video) (t : ℚ) (i : Nat) :
    (i ∈ analyze_frames v t ↔
      1 ≤ i ∧ i < min v.frame_count.toNat v.frames.length ∧
      t < change_percentage (grayFrame (v.frames.getD i []))
            (grayFrame (v.frames.getD (i - 1) []))) ∧
    (change_percentage (grayFrame (v.frames.getD i []))
        (grayFrame (v.frames.getD (i - 1) [])) = t → i ∉ analyze_frames v t) ∧
    (0 ≤ t → v.frames.getD i [] = v.frames.getD (i - 1) [] →
      i ∉ analyze_frames v t) ∧
    (∀ cur prev : GrayFrame,
      change_percentage cur prev =
        (((absdiff cur prev).countP fun d => decide (25 < d) : Nat) : ℚ) /
          ((absdiff cur prev).length : ℚ)) := by
  refine ⟨mem_analyze_frames v t i, ?_, ?_, change_percentage_eq_div⟩
  · intro heq hmem
    rw [mem_analyze_frames] at hmem
    rw [heq] at hmem
    exact lt_irrefl t hmem.2.2
  · intro ht heqf hmem
    rw [mem_analyze_frames] at hmem
    rw [heqf, change_percentage_self] at hmem
    exact absurd (lt_of_le_of_lt ht hmem.2.2) (lt_irrefl 0)

/-- Witness for C3: a transition whose change percentage equals the
threshold exactly is not flagged, and byte-identical consecutive frames are
not flagged under the default threshold. -/
theorem change_detection_rule_witness :
    1 ∉ analyze_frames videoAtThreshold 0.05 ∧
    1 ∉ analyze_frames videoTwoSame 0.05 :=
  ⟨(change_detection_rule videoAtThreshold 0.05 1).2.1 (by rw [ratPoint05]; decide),
   (change_detection_rule videoTwoSame 0.05 1).2.2.1 (by norm_num) (by decide)⟩

/-- C5: when a decode failure truncates the stream (fewer decodable frames
than the reported frame count), the scan returns exactly the alteration
indices of the successfully decoded frames — the same result as scanning a
stream whose reported count matches the decoded frames — rather than
raising. -/
theorem decode_failure_partial_result (fc : Int) (frames : List Frame) (t : ℚ)
    (h : (frames.length : Int) ≤ fc) :
    analyze_frames ⟨fc, frames⟩ t = flaggedIndices t frames ∧
    analyze_frames ⟨fc, frames⟩ t =
      analyze_frames ⟨(frames.length : Int), frames⟩ t := by
  have htake : frames.take (Int.toNat fc) = frames :=
    List.take_of_length_le (by omega)
  have h1 : analyze_frames ⟨fc, frames⟩ t = flaggedIndices t frames := by
    rw [analyze_frames_eq]
    exact congrArg (flaggedIndices t) htake
  refine ⟨h1, ?_⟩
  rw [h1, analyze_frames_eq]
  rw [show ((frames.length : Int)).toNat = frames.length from Int.toNat_natCast _]
  rw [List.take_length]

/-- Witness for C5: a container reporting 10 frames of which only 2 decode
yields exactly the flagged indices of the 2 decoded frames. -/
theorem decode_failure_partial_result_witness :
    analyze_frames ⟨10, [frameBlack, frameWhite]⟩ (mkRat 1 20) =
      flaggedIndices (mkRat 1 20) [frameBlack, frameWhite] :=
  (decode_failure_partial_result 10 [frameBlack, frameWhite] (mkRat 1 20) (by decide)).1

/-- Counterexample to C7: a container that opens but reports zero frames
(and whose codec tag is arbitrary) is NOT a failure case —
`extract_metadata` returns a success record, so the failure cases are not
"exactly" {cannot open, zero frames, unreadable codec}. -/
theorem metadata_zero_frames_not_failure :
    (extract_metadata captureZeroFrames).isOk = true ∧
    captureZeroFrames.frame_count = 0 := by
  constructor
  · rfl
  · rfl

/-- C7 (amended): `extract_metadata` returns a typed failure exactly when
the container cannot be opened; zero-frame containers and every codec tag
are accepted.  On success the record carries the container's reported
frame count, width and height unvalidated, its codec is the 4-character
tag decoded byte-by-byte least-significant first, and its resolution is
the string "WxH" consistent with its width and height fields. -/
theorem extract_metadata_amended (c : Capture) :
    ((extract_metadata c).isOk = c.opened) ∧
    (∀ m, extract_metadata c = MetaResult.ok m →
      m.frame_count = c.frame_count ∧
      m.frame_width = c.frame_width ∧
      m.frame_height = c.frame_height ∧
      m.codec.length = 4 ∧
      m.codec = fourccChars c.fourcc ∧
      m.resolution = toString m.frame_width ++ "x" ++ toString m.frame_height) := by
  constructor
  · cases hop : c.opened <;> simp [extract_metadata, hop, MetaResult.isOk]
  · intro m hm
    cases hop : c.opened
    · rw [extract_metadata] at hm
      simp [hop] at hm
    · rw [extract_metadata] at hm
      simp only [hop, Bool.not_true, Bool.false_eq_true, if_false, MetaResult.ok.injEq] at hm
      subst hm
      refine ⟨rfl, rfl, rfl, rfl, rfl, rfl⟩

/-- Evaluation of `extract_metadata` on the concrete opened capture. -/
lemma extract_metadata_captureSmall :
    extract_metadata captureSmall = MetaResult.ok metadataSmall := by
  rw [extract_metadata]
  simp only [captureSmall, Bool.not_true, Bool.false_eq_true, if_false,
    MetaResult.ok.injEq, metadataSmall, Metadata.mk.injEq]
  refine ⟨trivial, trivial, trivial, trivial, by decide, by decide, ?_⟩
  rw [if_pos (by norm_num)]
  norm_num

/-- Witness for C7's amended theorem at the concrete opened capture. -/
theorem extract_metadata_amended_witness :
    metadataSmall.codec.length = 4 ∧
    metadataSmall.resolution =
      toString metadataSmall.frame_width ++ "x" ++ toString metadataSmall.frame_height ∧
    metadataSmall.frame_count = captureSmall.frame_count := by
  have h := (extract_metadata_amended captureSmall).2 metadataSmall
    extract_metadata_captureSmall
  exact ⟨h.2.2.2.1, h.2.2.2.2.2, h.1⟩

/-- C9: the duration computation is guarded — `duration_seconds` is
`frame_count / fps` when `fps > 0` and the literal 0 otherwise, so a zero
fps never reaches the division; and whenever the container reports a
non-negative frame count (every real container does, per the data model),
the extracted `duration_seconds` is non-negative. -/
theorem duration_guarded (c : Capture) (m : Metadata)
    (h : extract_metadata c = MetaResult.ok m) :
    (0 < c.fps → m.duration_seconds = (c.frame_count : ℚ) / c.fps) ∧
    (c.fps ≤ 0 → m.duration_seconds = 0) ∧
    (0 ≤ c.frame_count → 0 ≤ m.duration_seconds) := by
  cases hop : c.opened
  · rw [extract_metadata] at h
    simp [hop] at h
  · rw [extract_metadata] at h
    simp only [hop, Bool.not_true, Bool.false_eq_true, if_false, MetaResult.ok.injEq] at h
    subst h
    refine ⟨fun hf => by simp [hf], fun hf => by simp [not_lt.mpr hf], fun hfc => ?_⟩
    split
    · rename_i hf
      exact div_nonneg (by exact_mod_cast hfc) (le_of_lt hf)
    · exact le_refl 0

/-- Witness for C9 at the concrete opened capture: duration is 100/25 and
non-negative. -/
theorem duration_guarded_witness :
    metadataSmall.duration_seconds = ((captureSmall.frame_count : ℚ) / captureSmall.fps) ∧
    0 ≤ metadataSmall.duration_seconds := by
  have h := duration_guarded captureSmall metadataSmall extract_metadata_captureSmall
  exact ⟨h.1 (by norm_num [captureSmall]), h.2.2 (by decide)⟩

/-- C6: for a report assembled from a scan, the integrity score equals
`max 0 (100 * (1 - altered_count / frame_count))` when `frame_count > 0`
and is the fixed score 100 otherwise; the score is 100 exactly when the
alteration set is empty; with `frame_count` fixed and positive it is
non-increasing in the number of altered frames; and it is never
negative. -/
theorem integrity_score_spec (v : Video) (t : ℚ) :
    (0 < v.frame_count →
      integrity_score (analyze_frames v t) v.frame_count =
        max 0 (100 * (1 - ((analyze_frames v t).length : ℚ) / (v.frame_count : ℚ)))) ∧
    (v.frame_count ≤ 0 → integrity_score (analyze_frames v t) v.frame_count = 100) ∧
    (integrity_score (analyze_frames v t) v.frame_count = 100 ↔
      analyze_frames v t = []) ∧
    (∀ (l1 l2 : List Nat) (n : Int), 0 < n → l1.length ≤ l2.length →
      integrity_score l2 n ≤ integrity_score l1 n) ∧
    (∀ (l : List Nat) (n : Int), 0 ≤ integrity_score l n) := by
  refine ⟨?_, ?_, ⟨?_, ?_⟩, ?_, ?_⟩
  · intro hfc
    by_cases h : analyze_frames v t = []
    · rw [h]
      rw [integrity_score]
      norm_num
    · have hlen : 0 < (analyze_frames v t).length := List.length_pos.mpr h
      rw [integrity_score, if_pos hlen]
      congr 1
      ring
  · intro hfc
    have h0 : analyze_frames v t = [] := by
      rw [analyze_frames, if_pos hfc]
    rw [h0, integrity_score]
    norm_num
  · intro hs
    by_contra h
    have hfc2 := frame_count_ge_two_of_ne_nil h
    have hlen : 0 < (analyze_frames v t).length := List.length_pos.mpr h
    rw [integrity_score, if_pos hlen] at hs
    have ha : (1 : ℚ) ≤ ((analyze_frames v t).length : ℚ) := by exact_mod_cast hlen
    have hfcq : (2 : ℚ) ≤ (v.frame_count : ℚ) := by exact_mod_cast hfc2
    have hx : 0 < ((analyze_frames v t).length : ℚ) / (v.frame_count : ℚ) * 100 := by
      positivity
    exact absurd hs (ne_of_lt (max_lt (by norm_num) (by linarith)))
  · intro h
    rw [h, integrity_score]
    norm_num
  · intro l1 l2 n hn hlen
    have hnq : (0 : ℚ) < (n : ℚ) := by exact_mod_cast hn
    rcases Nat.eq_zero_or_pos l2.length with h2 | h2
    · rw [integrity_score, integrity_score, if_neg (by omega), if_neg (by omega)]
    · rw [integrity_score, if_pos h2]
      by_cases h1 : 0 < l1.length
      · rw [integrity_score, if_pos h1]
        have hl : (l1.length : ℚ) ≤ (l2.length : ℚ) := by exact_mod_cast hlen
        gcongr
      · rw [integrity_score, if_neg h1]
        exact max_le (by norm_num) (by
          have : 0 ≤ ((l2.length : ℚ) / (n : ℚ)) * 100 := by positivity
          linarith)
  · intro l n
    rw [integrity_score]
    split
    · exact le_max_left 0 _
    · norm_num

/-- Witness for C6 at the synthetic flip video (positive frame count), the
empty-file video (non-positive frame count), and two concrete alteration
lists for monotonicity. -/
theorem integrity_score_spec_witness :
    integrity_score (analyze_frames videoFlip (mkRat 1 20)) videoFlip.frame_count =
      max 0 (100 * (1 - ((analyze_frames videoFlip (mkRat 1 20)).length : ℚ) /
        (videoFlip.frame_count : ℚ))) ∧
    integrity_score (analyze_frames emptyFileVideo (mkRat 1 20))
      emptyFileVideo.frame_count = 100 ∧
    integrity_score [3, 5] 10 ≤ integrity_score [5] 10 :=
  ⟨(integrity_score_spec videoFlip (mkRat 1 20)).1 (by decide),
   (integrity_score_spec emptyFileVideo (mkRat 1 20)).2.1 (by decide),
   (integrity_score_spec emptyFileVideo (mkRat 1 20)).2.2.2.1 [5] [3, 5] 10
     (by decide) (by decide)⟩

/-- C10: the dividing branch of the score computation is entered only for a
non-empty alteration set, and a non-empty `analyze_frames` result forces
the reported frame count to be at least 2 — in particular the divisor
`frame_count` is non-zero, so the division never divides by zero. -/
theorem score_division_safe (v : Video) (t : ℚ)
    (h : analyze_frames v t ≠ []) :
    2 ≤ v.frame_count ∧ v.frame_count ≠ 0 ∧ ((v.frame_count : ℚ) ≠ 0) := by
  have h2 := frame_count_ge_two_of_ne_nil h
  exact ⟨h2, by omega, Int.cast_ne_zero.mpr (by omega)⟩

/-- Witness for C10 at the synthetic flip video, whose alteration set `[5]`
is non-empty. -/
theorem score_division_safe_witness :
    2 ≤ videoFlip.frame_count ∧ videoFlip.frame_count ≠ 0 ∧
      ((videoFlip.frame_count : ℚ) ≠ 0) :=
  score_division_safe videoFlip (mkRat 1 20) (by decide)

/-- Counterexample to C8: the threshold `-1` lies outside `[0, 1]`, yet
`analyze_frames` is not rejected before analysis — it runs to completion
and returns the ordinary alteration list `[1]`, flagging a transition
between two byte-identical frames. -/
theorem threshold_not_rejected_counterexample :
    ((-1 : ℚ) < 0 ∨ 1 < (-1 : ℚ)) ∧ analyze_frames videoTwoSame (-1) = [1] :=
  ⟨Or.inl (by norm_num), by decide⟩

/-- C8 (amended): `analyze_frames` performs no threshold validation — any
rational threshold is accepted and the scan produces an ordinary result.
An out-of-range threshold silently degenerates: a threshold at least 1
yields the empty alteration set, and a negative threshold flags every
scanned transition (every index in `[1, min(frame_count, decoded) - 1]`),
even between identical frames. -/
theorem threshold_not_validated (v : Video) (t : ℚ) :
    (1 ≤ t → analyze_frames v t = []) ∧
    (t < 0 → ∀ j, j ∈ analyze_frames v t ↔
      1 ≤ j ∧ j < min v.frame_count.toNat v.frames.length) := by
  constructor
  · intro ht
    by_contra h
    obtain ⟨j, hj⟩ := List.exists_mem_of_ne_nil _ h
    rw [mem_analyze_frames] at hj
    have hcp := hj.2.2
    have hle := change_percentage_le_one (grayFrame (v.frames.getD j []))
      (grayFrame (v.frames.getD (j - 1) []))
    linarith
  · intro ht j
    rw [mem_analyze_frames]
    constructor
    · rintro ⟨h1, h2, _⟩
      exact ⟨h1, h2⟩
    · rintro ⟨h1, h2⟩
      exact ⟨h1, h2, lt_of_lt_of_le ht (change_percentage_nonneg _ _)⟩

/-- Witness for C8's amended theorem: threshold 2 produces the empty set on
the two-identical-frame video, and threshold -1 flags its only
transition. -/
theorem threshold_not_validated_witness :
    analyze_frames videoTwoSame 2 = [] ∧
    (1 ∈ analyze_frames videoTwoSame (-1) ↔
      1 ≤ 1 ∧ 1 < min videoTwoSame.frame_count.toNat videoTwoSame.frames.length) :=
  ⟨(threshold_not_validated videoTwoSame 2).1 (by norm_num),
   (threshold_not_validated videoTwoSame (-1)).2 (by norm_num) 1⟩

set_option maxRecDepth 10000 in
/-- C4: for a zero-byte input file, the metadata extractor signals the
input failure, the hash computer returns the well-known MD5 digest of the
empty byte sequence, and the frame scan returns the empty alteration set;
in general, whenever the reported frame count is non-positive,
`analyze_frames` returns `[]` immediately. -/
theorem empty_file_behavior :
    extract_metadata emptyFileCapture = MetaResult.error "Failed to open video file" ∧
    calculate_hash [] = "d41d8cd98f00b204e9800998ecf8427e" ∧
    (∀ (v : Video) (t : ℚ), v.frame_count ≤ 0 → analyze_frames v t = []) := by
  refine ⟨rfl, by decide, fun v t h => ?_⟩
  rw [analyze_frames, if_pos h]

/-- Witness for C4's frame-count guard at the empty-file video. -/
theorem empty_file_behavior_witness :
    analyze_frames emptyFileVideo (mkRat 1 20) = [] :=
  empty_file_behavior.2.2 emptyFileVideo (mkRat 1 20) (by decide)
